import Mathlib

/-!
A shallow embedding of the `csc` library (a client-side cache on top of
Redis server-assisted client-side caching) and proofs about it.

Conventions used throughout the embedding:

* Go byte slices (`[]byte`) are modelled as `Option String`: `none` is the
  `nil` slice, `some s` a (possibly empty) byte string.
* `time.Time` values are modelled as `Int` seconds; the zero (unset) time
  of a `cacheEntry.expires` field is modelled as `none : Option Int`.
* The Go map `entries` of the cache is modelled as an association list
  whose list order stands for the (unspecified) map iteration order; a
  concrete list represents one possible iteration order.
* `rand.Intn(n)` draws are inputs of the functions that use them (the
  draw is an external random value).  `rand.Intn(n)` panics for `n ≤ 0`;
  panics are modelled by returning `none` from an `Option` result.
* Redis connections are modelled as scripted reply queues
  (`List (Except RErr RVal)`); each `Do` round trip consumes one reply.
  The RESP decoding helpers of the external redigo library
  (`redis.Bytes`, `redis.Int`, ...) are modelled shallowly on a small
  reply datatype.
-/

/-- Model of redigo / transport errors surfaced by a Redis round trip:
`nilE` is `redis.ErrNil`, `typeE` an unexpected-reply-type conversion
error, `io n` an I/O (transport) error. -/
inductive RErr where
  | nilE
  | typeE
  | io (n : Nat)
deriving DecidableEq, Repr

/-- Model of a decoded RESP reply value as redigo hands it to the client:
`simple` is a status reply (a Go `string`), `bulk` a bulk string
(`[]byte`), `intv` an integer reply, `arr` an array reply, `nilv` a nil
reply. -/
inductive RVal where
  | nilv
  | simple (s : String)
  | bulk (s : String)
  | intv (n : Int)
  | arr (xs : List RVal)
deriving Repr

mutual

/-- Decidable equality for reply values (written by hand because of the
nested `List RVal`). -/
def RVal.deq : (a b : RVal) → Decidable (a = b)
  | .nilv, .nilv => isTrue rfl
  | .nilv, .simple _ => isFalse nofun
  | .nilv, .bulk _ => isFalse nofun
  | .nilv, .intv _ => isFalse nofun
  | .nilv, .arr _ => isFalse nofun
  | .simple _, .nilv => isFalse nofun
  | .simple a, .simple b =>
    match decEq a b with
    | isTrue h => isTrue (by rw [h])
    | isFalse h => isFalse (by intro hh; injection hh; contradiction)
  | .simple _, .bulk _ => isFalse nofun
  | .simple _, .intv _ => isFalse nofun
  | .simple _, .arr _ => isFalse nofun
  | .bulk _, .nilv => isFalse nofun
  | .bulk _, .simple _ => isFalse nofun
  | .bulk a, .bulk b =>
    match decEq a b with
    | isTrue h => isTrue (by rw [h])
    | isFalse h => isFalse (by intro hh; injection hh; contradiction)
  | .bulk _, .intv _ => isFalse nofun
  | .bulk _, .arr _ => isFalse nofun
  | .intv _, .nilv => isFalse nofun
  | .intv _, .simple _ => isFalse nofun
  | .intv _, .bulk _ => isFalse nofun
  | .intv a, .intv b =>
    match decEq a b with
    | isTrue h => isTrue (by rw [h])
    | isFalse h => isFalse (by intro hh; injection hh; contradiction)
  | .intv _, .arr _ => isFalse nofun
  | .arr _, .nilv => isFalse nofun
  | .arr _, .simple _ => isFalse nofun
  | .arr _, .bulk _ => isFalse nofun
  | .arr _, .intv _ => isFalse nofun
  | .arr xs, .arr ys =>
    match RVal.deqList xs ys with
    | isTrue h => isTrue (by rw [h])
    | isFalse h => isFalse (by intro hh; injection hh; contradiction)

/-- Decidable equality for lists of reply values. -/
def RVal.deqList : (xs ys : List RVal) → Decidable (xs = ys)
  | [], [] => isTrue rfl
  | [], _ :: _ => isFalse nofun
  | _ :: _, [] => isFalse nofun
  | x :: xs, y :: ys =>
    match RVal.deq x y, RVal.deqList xs ys with
    | isTrue h1, isTrue h2 => isTrue (by rw [h1, h2])
    | isFalse h1, _ => isFalse (by intro hh; injection hh; contradiction)
    | _, isFalse h2 => isFalse (by intro hh; injection hh; contradiction)

end

instance : DecidableEq RVal := RVal.deq

/-- Model of `redis.Bytes`: bulk and status replies convert to bytes, a
nil reply yields `ErrNil`, anything else a type error. -/
def redisBytes : Except RErr RVal → Except RErr String
  | .error e => .error e
  | .ok (.bulk s) => .ok s
  | .ok (.simple s) => .ok s
  | .ok .nilv => .error .nilE
  | .ok _ => .error .typeE

/-- Model of `redis.Int` restricted to the integer replies the data path
receives (TTL and EXEC elements are integer replies). -/
def redisInt : Except RErr RVal → Except RErr Int
  | .error e => .error e
  | .ok (.intv n) => .ok n
  | .ok .nilv => .error .nilE
  | .ok _ => .error .typeE

/-- Model of `redis.Values`: an array reply yields its elements. -/
def redisValues : Except RErr RVal → Except RErr (List RVal)
  | .error e => .error e
  | .ok (.arr xs) => .ok xs
  | .ok .nilv => .error .nilE
  | .ok _ => .error .typeE

/-- Converts one array element to a string, as `redis.Strings` does per
element. -/
def rvalToString : RVal → Except RErr String
  | .bulk s => .ok s
  | .simple s => .ok s
  | _ => .error .typeE

/-- Element-wise conversion of an array reply, stopping at the first
failing element. -/
def mapE {α β : Type} (f : α → Except RErr β) : List α → Except RErr (List β)
  | [] => .ok []
  | x :: xs =>
    match f x, mapE f xs with
    | .ok y, .ok ys => .ok (y :: ys)
    | .error e, _ => .error e
    | .ok _, .error e => .error e

/-- Model of `redis.Strings` applied to one reply value. -/
def redisStrings : Except RErr RVal → Except RErr (List String)
  | .error e => .error e
  | .ok (.arr xs) => mapE rvalToString xs
  | .ok .nilv => .error .nilE
  | .ok _ => .error .typeE

/-- Converts one array element to a byte slice, as `redis.ByteSlices`
does per element (a nil element becomes a nil slice). -/
def rvalToBytes : RVal → Except RErr (Option String)
  | .bulk s => .ok (some s)
  | .simple s => .ok (some s)
  | .nilv => .ok none
  | _ => .error .typeE

/-- Model of `redis.ByteSlices` applied to one reply value. -/
def redisByteSlices : Except RErr RVal → Except RErr (List (Option String))
  | .error e => .error e
  | .ok (.arr xs) => mapE rvalToBytes xs
  | .ok .nilv => .error .nilE
  | .ok _ => .error .typeE

/-- Model of `redis.Ints` applied to one reply value. -/
def redisInts : Except RErr RVal → Except RErr (List Int)
  | .error e => .error e
  | .ok (.arr xs) => mapE (fun v => redisInt (.ok v)) xs
  | .ok .nilv => .error .nilE
  | .ok _ => .error .typeE

/-- Model of the Go conversion `string(b)` on a `[]byte`: a nil slice
converts to the empty string. -/
def goStr : Option String → String
  | none => ""
  | some s => s

/-- One entry of the local cache (`cacheEntry` in cache.go): `data` is
the stored bytes, `expires` the absolute expiry instant, `none` when the
zero time (no expiry) is stored. -/
structure CEntry where
  data : Option String
  expires : Option Int
deriving DecidableEq, Repr

/-- The local cache (`cache` in cache.go).  `entries` is the Go map in
iteration order; the mutex is irrelevant in the sequential embedding and
the counters are plain naturals. -/
structure Cache where
  maxEntries : Nat
  entries : List (String × CEntry)
  hits : Nat
  misses : Nat
  evictions : Nat
  expired : Nat
deriving DecidableEq, Repr

namespace Cache

/-- Go map lookup `c.entries[key]`. -/
def lookupE (es : List (String × CEntry)) (k : String) : Option CEntry :=
  (es.find? (fun p => p.1 = k)).map (fun p => p.2)

/-- Go map assignment `c.entries[key] = e`: replaces in place when the
key is present, otherwise adds the entry. -/
def insertE (es : List (String × CEntry)) (k : String) (e : CEntry) :
    List (String × CEntry) :=
  match es with
  | [] => [(k, e)]
  | (k', e') :: t => if k' = k then (k, e) :: t else (k', e') :: insertE t k e

/-- Models `cache.delete(keys...)`: removes every listed key, silent on absent
keys. -/
def delete (c : Cache) (keys : List String) : Cache :=
  { c with entries := c.entries.filter (fun p => ¬ keys.contains p.1) }

/-- Models `cache.evictSize()`: `int(math.Ceil(0.05 * float64(len)))`, clamped
up to 1.  The float computation is exact for every realistic population
(the product `0.05 * n` rounds to `n/20` whenever `20 ∣ n` and otherwise
lies strictly between the surrounding integers), so a ceiling division
on naturals models it. -/
def evictSize (n : Nat) : Nat :=
  let s := (n + 19) / 20
  if s = 0 then 1 else s

/-- Models `cache.evictKeys()` with the random draw `start` of
`rand.Intn(len(c.entries) - size)` made explicit.  `rand.Intn` panics
when its argument is `≤ 0`, modelled by `none`.  The loop deletes a
contiguous run of `size` entries of the map iteration order beginning at
position `start`, and adds the number of removed entries to the
evictions counter. -/
def evictKeys (start : Nat) (c : Cache) : Option Cache :=
  let size := evictSize c.entries.length
  if c.entries.length ≤ size then none
  else
    let remaining := c.entries.take start ++ c.entries.drop (start + size)
    some { c with entries := remaining,
                  evictions := c.evictions + (c.entries.length - remaining.length) }

/-- Models `cache.set(key, value, expires)` with the eviction draw `start` and
the current instant `now` made explicit: runs `evictKeys` first when the
cache is full, then stores the entry; a positive ttl records the
absolute expiry, otherwise the zero time. -/
def set (start : Nat) (now : Int) (c : Cache) (key : String)
    (value : Option String) (ttl : Int) : Option Cache := do
  let c ← if c.entries.length ≥ c.maxEntries then evictKeys start c else some c
  let e : CEntry := { data := value, expires := if ttl > 0 then some (now + ttl) else none }
  return { c with entries := insertE c.entries key e }

/-- Models `cache.getEntry(key)`: the entry and its presence flag, bumping the
hit or miss counter. -/
def getEntry (c : Cache) (k : String) : Option CEntry × Cache :=
  match lookupE c.entries k with
  | some ce => (some ce, { c with hits := c.hits + 1 })
  | none => (none, { c with misses := c.misses + 1 })

/-- Models `cache.get(key)`: the data of the entry, `nil` when absent. -/
def get (c : Cache) (k : String) : Option String × Cache :=
  match getEntry c k with
  | (some ce, c') => (ce.data, c')
  | (none, c') => (none, c')

/-- Models `cache.getm(keys...)`: an entry per key in input order, the zero
entry for absent keys, bumping hit/miss per key. -/
def getm (c : Cache) (keys : List String) : List CEntry × Cache :=
  match keys with
  | [] => ([], c)
  | k :: rest =>
    match lookupE c.entries k with
    | some ce =>
      let (es, c') := getm { c with hits := c.hits + 1 } rest
      (ce :: es, c')
    | none =>
      let (es, c') := getm { c with misses := c.misses + 1 } rest
      (⟨none, none⟩ :: es, c')

/-- Models `cache.evictExpired()`: removes every entry whose expiry is set and
strictly before `now`, adding the count to the expired counter. -/
def evictExpired (now : Int) (c : Cache) : Cache :=
  let ks := (c.entries.filter (fun p =>
    match p.2.expires with
    | some e => e < now
    | none => false)).map (fun p => p.1)
  if ks.length > 0 then
    delete { c with expired := c.expired + ks.length } ks
  else c

/-- Models `cache.flush()`: clears the entries and zeroes every counter. -/
def flush (c : Cache) : Cache :=
  { c with entries := [], hits := 0, misses := 0, evictions := 0, expired := 0 }

end Cache

/-- The pool options the client consults (`PoolOptions`); only the key
prefix field (`KeyPrefix`) is read by client operations. -/
structure PoolOptions where
  kpfx : String
deriving DecidableEq, Repr

/-- A scripted data connection: the queue of replies the server will
give, one per `Do` round trip. -/
instance {ε α : Type} [DecidableEq ε] [DecidableEq α] :
    DecidableEq (Except ε α) := fun
  | .error a, .error b =>
    match decEq a b with
    | isTrue h => isTrue (by rw [h])
    | isFalse h => isFalse (by intro hh; injection hh; contradiction)
  | .error _, .ok _ => isFalse nofun
  | .ok _, .error _ => isFalse nofun
  | .ok a, .ok b =>
    match decEq a b with
    | isTrue h => isTrue (by rw [h])
    | isFalse h => isFalse (by intro hh; injection hh; contradiction)

abbrev Conn := List (Except RErr RVal)

/-- One `Do` round trip on a scripted connection; an exhausted script is
an I/O error. -/
def doRecv : Conn → Except RErr RVal × Conn
  | [] => (.error (.io 0), [])
  | r :: rest => (r, rest)

/-- A Redis command issued on the data connection, recorded as its name
and its key arguments (non-key arguments such as the SETEX value are not
tracked). -/
structure Cmd where
  name : String
  keys : List String
deriving DecidableEq, Repr

/-- A local-cache operation performed by a client operation, recorded as
its name and the key arguments passed to the cache. -/
structure CacheOp where
  name : String
  keys : List String
deriving DecidableEq, Repr

/-- The errors a client operation can return: `closedE` is `ErrClosed`,
`redis e` a surfaced Redis error. -/
inductive CscErr where
  | closedE
  | redis (e : RErr)
deriving DecidableEq, Repr

/-- The mutable state of a `Client`: its closed flag, its cache handle
and its scripted data connection. -/
structure ClientState where
  closed : Bool
  cache : Cache
  conn : Conn
deriving DecidableEq, Repr

/-- The `Entry` struct returned by client reads (`Data`, `Expires`,
`LocalHit`). -/
structure Entry where
  data : Option String
  expires : Option Int
  localHit : Bool
deriving DecidableEq, Repr

/-- Models `Entry.Miss()`: the data is the nil slice. -/
def Entry.missF (e : Entry) : Bool := e.data = none

/-- The outcome of a client operation: its result, the final cache and
connection, the Redis commands sent and the cache operations performed,
in order. -/
structure OpResult (α : Type) where
  res : Except CscErr α
  cache : Cache
  conn : Conn
  sent : List Cmd
  cops : List CacheOp
deriving DecidableEq, Repr

/-- Models `cacheInProgressSentinel`, the fixed in-flight marker byte string. -/
def cacheInProgressSentinel : String := "__csc:cip__"

/-- Models `Client.prefixKey`: prepends the pool's key prefix when it is
non-empty. -/
def pfxKey (opts : PoolOptions) (k : String) : String :=
  if opts.kpfx ≠ "" then opts.kpfx ++ k else k

/-- Models `Client.getEntry(key)` of client.go (part_007), the sentinel
protocol.  `now` is the current instant, `off1` and `off2` are the
eviction draws of the two internal `cache.set` calls, and `f` models the
cache mutations performed concurrently by the invalidation receiver
between the sentinel write and the re-read (instantiate `f = id` for a
race-free run).  `none` models a panic inside `cache.set`
(`rand.Intn(0)`). -/
def clientGetEntry (opts : PoolOptions) (cl : ClientState) (now : Int)
    (off1 off2 : Nat) (f : Cache → Cache) (key0 : String) :
    Option (OpResult Entry) :=
  if cl.closed then some ⟨.error .closedE, cl.cache, cl.conn, [], []⟩
  else
    let key := pfxKey opts key0
    let (ce?, c1) := Cache.getEntry cl.cache key
    let log0 : List CacheOp := [⟨"cache.getEntry", [key]⟩]
    -- local hit: present, non-nil and not the sentinel
    if ce?.isSome ∧ (ce?.getD ⟨none, none⟩).data.isSome ∧
        goStr (ce?.getD ⟨none, none⟩).data ≠ cacheInProgressSentinel then
      some ⟨.ok ⟨(ce?.getD ⟨none, none⟩).data, (ce?.getD ⟨none, none⟩).expires, true⟩,
        c1, cl.conn, [], log0⟩
    else
      match Cache.set off1 now c1 key (some cacheInProgressSentinel) 30 with
      | none => none
      | some c2 =>
        let logPlant := log0 ++ [⟨"cache.set", [key]⟩]
        let (r1, k1) := doRecv cl.conn
        match redisBytes r1 with
        | .error e =>
          -- cleanup: delete locally, then a DEL round trip whose reply is ignored
          let c3 := Cache.delete c2 [key]
          let (_, k2) := doRecv k1
          some ⟨.error (.redis e), c3, k2, [⟨"GET", [key]⟩, ⟨"DEL", [key]⟩],
            logPlant ++ [⟨"cache.delete", [key]⟩]⟩
        | .ok d =>
          let (r2, k2) := doRecv k1
          match redisInt r2 with
          | .error e =>
            let c3 := Cache.delete c2 [key]
            let (_, k3) := doRecv k2
            some ⟨.error (.redis e), c3, k3,
              [⟨"GET", [key]⟩, ⟨"TTL", [key]⟩, ⟨"DEL", [key]⟩],
              logPlant ++ [⟨"cache.delete", [key]⟩]⟩
          | .ok t =>
            let c3 := f c2
            let (d2, c4) := Cache.get c3 key
            let logRead := logPlant ++ [⟨"cache.get", [key]⟩]
            if goStr d2 = cacheInProgressSentinel then
              match Cache.set off2 now c4 key (some d) t with
              | none => none
              | some c5 =>
                some ⟨.ok ⟨some d, some (now + t), false⟩, c5, k2,
                  [⟨"GET", [key]⟩, ⟨"TTL", [key]⟩],
                  logRead ++ [⟨"cache.set", [key]⟩]⟩
            else
              some ⟨.ok ⟨some d, some (now + t), false⟩, c4, k2,
                [⟨"GET", [key]⟩, ⟨"TTL", [key]⟩], logRead⟩

/-- Models `Client.GetEntry` is `getEntry`. -/
def clientGetEntryPub (opts : PoolOptions) (cl : ClientState) (now : Int)
    (off1 off2 : Nat) (f : Cache → Cache) (key0 : String) :
    Option (OpResult Entry) :=
  clientGetEntry opts cl now off1 off2 f key0

/-- Models `Client.Get`: `getEntry`, returning only the data. -/
def clientGet (opts : PoolOptions) (cl : ClientState) (now : Int)
    (off1 off2 : Nat) (f : Cache → Cache) (key0 : String) :
    Option (OpResult (Option String)) :=
  (clientGetEntry opts cl now off1 off2 f key0).map (fun r =>
    { r with res := r.res.map (fun e => e.data) })

/-- Models `Client.Set(key, value, expires)`: fails when closed, otherwise a
SETEX round trip; the local cache is not touched. -/
def clientSet (opts : PoolOptions) (cl : ClientState) (key0 : String)
    (_value : Option String) (_ttl : Int) : OpResult Unit :=
  if cl.closed then ⟨.error .closedE, cl.cache, cl.conn, [], []⟩
  else
    let key := pfxKey opts key0
    let (r, k1) := doRecv cl.conn
    match r with
    | .error e => ⟨.error (.redis e), cl.cache, k1, [⟨"SETEX", [key]⟩], []⟩
    | .ok _ => ⟨.ok (), cl.cache, k1, [⟨"SETEX", [key]⟩], []⟩

/-- Models `Client.Delete(keys...)`: fails when closed; prefixes every key when
a prefix is configured; DEL round trip, then local delete. -/
def clientDelete (opts : PoolOptions) (cl : ClientState)
    (keys0 : List String) : OpResult Unit :=
  if cl.closed then ⟨.error .closedE, cl.cache, cl.conn, [], []⟩
  else
    let keys := if opts.kpfx ≠ "" then keys0.map (pfxKey opts) else keys0
    let (r, k1) := doRecv cl.conn
    match r with
    | .error e => ⟨.error (.redis e), cl.cache, k1, [⟨"DEL", keys⟩], []⟩
    | .ok _ =>
      ⟨.ok (), Cache.delete cl.cache keys, k1, [⟨"DEL", keys⟩],
        [⟨"cache.delete", keys⟩]⟩

/-- Takes the next eviction draw from a supply of random values (an
exhausted supply yields 0, a draw that is always valid when no panic
occurs). -/
def takeOff : List Nat → Nat × List Nat
  | [] => (0, [])
  | o :: os => (o, os)

/-- Go map assignment on a string-to-index map (`idxMap[k] = i`); a later
assignment to the same key overwrites. -/
def assocSet : List (String × Nat) → String → Nat → List (String × Nat)
  | [], k, i => [(k, i)]
  | (k', i') :: t, k, i => if k' = k then (k, i) :: t else (k', i') :: assocSet t k i

/-- Go map read on a string-to-index map (`idxMap[k]`), zero value when
absent. -/
def assocGetD (m : List (String × Nat)) (k : String) : Nat :=
  ((m.find? (fun p => p.1 = k)).map (fun p => p.2)).getD 0

/-- The first loop of `Client.GetEntries`: walks the `getm` results in
input order, filling hit entries and collecting the missing keys and
their result indices. -/
def scanLocalGo : List (String × CEntry) → Nat → List (String × Nat) →
    List String → List Entry → List (String × Nat) × List String × List Entry
  | [], _, m, miss, es => (m, miss, es)
  | (k, ce) :: rest, i, m, miss, es =>
    if ce.data = none then
      scanLocalGo rest (i + 1) (assocSet m k i) (miss ++ [k])
        (es ++ [⟨none, none, false⟩])
    else
      scanLocalGo rest (i + 1) m miss (es ++ [⟨ce.data, ce.expires, true⟩])

/-- The sentinel-planting loop of `Client.GetEntries`: one `cache.set`
of the sentinel per missing key. -/
def plantAll (now : Int) : Cache → List Nat → List String →
    Option (Cache × List Nat × List CacheOp)
  | c, offs, [] => some (c, offs, [])
  | c, offs, k :: rest =>
    let (o, offs') := takeOff offs
    match Cache.set o now c k (some cacheInProgressSentinel) 30 with
    | none => none
    | some c' =>
      (plantAll now c' offs' rest).map
        (fun r => (r.1, r.2.1, ⟨"cache.set", [k]⟩ :: r.2.2))

/-- The commit loop of `Client.GetEntries`: per missing key, a nil MGET
slot deletes the key locally; otherwise the sentinel-check commit rule
is applied and the result slot is filled.  Indexing past the end of the
MGET or TTL reply is a panic (`none`). -/
def commitLoop (now : Int) (idxMap : List (String × Nat))
    (mres : List (Option String)) (ttls : List Int) :
    Cache → List Nat → List Entry → Nat → List String →
    Option (Cache × List Entry × List CacheOp)
  | c, _, entries, _, [] => some (c, entries, [])
  | c, offs, entries, i, k :: rest =>
    match mres.get? i, ttls.get? i with
    | some d?, some ttl =>
      match d? with
      | none =>
        let c' := Cache.delete c [k]
        (commitLoop now idxMap mres ttls c' offs entries (i + 1) rest).map
          (fun r => (r.1, r.2.1, ⟨"cache.delete", [k]⟩ :: r.2.2))
      | some d =>
        let (gd, c1) := Cache.get c k
        let idx := assocGetD idxMap k
        let entries' := entries.set idx ⟨some d, some (now + ttl), false⟩
        if goStr gd = cacheInProgressSentinel then
          let (o, offs') := takeOff offs
          match Cache.set o now c1 k (some d) ttl with
          | none => none
          | some c2 =>
            (commitLoop now idxMap mres ttls c2 offs' entries' (i + 1) rest).map
              (fun r => (r.1, r.2.1,
                ⟨"cache.get", [k]⟩ :: ⟨"cache.set", [k]⟩ :: r.2.2))
        else
          (commitLoop now idxMap mres ttls c1 offs entries' (i + 1) rest).map
            (fun r => (r.1, r.2.1, ⟨"cache.get", [k]⟩ :: r.2.2))
    | _, _ => none

/-- Models `Client.GetEntries(keys)` of client.go (part_007).  Note two
properties of the source mirrored here: the closed flag is never
checked, and the keys are used as given (no key prefix is applied,
neither towards Redis nor towards the local cache).  `offs` supplies the
eviction draws of the internal `cache.set` calls. -/
def clientGetEntries (_opts : PoolOptions) (cl : ClientState) (now : Int)
    (offs : List Nat) (keys : List String) :
    Option (OpResult (List Entry)) :=
  let (res0, c1) := Cache.getm cl.cache keys
  let (idxMap, missing, entries0) := scanLocalGo (keys.zip res0) 0 [] [] []
  match plantAll now c1 offs missing with
  | none => none
  | some (c2, offs2, plantOps) =>
    let log0 := [(⟨"cache.getm", keys⟩ : CacheOp)] ++ plantOps
    let (r1, k1) := doRecv cl.conn
    match redisByteSlices r1 with
    | .error e =>
      let c3 := Cache.delete c2 missing
      let (_, k2) := doRecv k1
      some ⟨.error (.redis e), c3, k2, [⟨"MGET", missing⟩, ⟨"DEL", missing⟩],
        log0 ++ [⟨"cache.delete", missing⟩]⟩
    | .ok mres =>
      let sentT : List Cmd :=
        [⟨"MULTI", []⟩] ++ missing.map (fun k => ⟨"TTL", [k]⟩) ++ [⟨"EXEC", []⟩]
      let (r2, k2) := doRecv k1
      match redisInts r2 with
      | .error e =>
        let c3 := Cache.delete c2 missing
        let (_, k3) := doRecv k2
        some ⟨.error (.redis e), c3, k3,
          [⟨"MGET", missing⟩] ++ sentT ++ [⟨"DEL", missing⟩],
          log0 ++ [⟨"cache.delete", missing⟩]⟩
      | .ok ttls =>
        match commitLoop now idxMap mres ttls c2 offs2 entries0 0 missing with
        | none => none
        | some (c3, entries1, commitOps) =>
          some ⟨.ok entries1, c3, k2, [⟨"MGET", missing⟩] ++ sentT,
            log0 ++ commitOps⟩

/-- One item arriving on the invalidation connection: either a receive
error or a decoded reply value. -/
inductive RItem where
  | fail
  | ok (v : RVal)
deriving DecidableEq, Repr

/-- Outcome of the invalidation receiver loop on a finite item stream:
`clean` models `return nil` (after `"RESET"`), `closedErr` models
`return ErrClosed`, `panicked` an index-out-of-range panic on a
malformed message, `pending` a loop still waiting for more input. -/
inductive ROut where
  | clean (c : Cache)
  | closedErr (c : Cache)
  | panicked (c : Cache)
  | pending (fails : Nat) (c : Cache)
deriving DecidableEq, Repr

/-- Models `invalidationsReceiver` of part_003 after a successful SUBSCRIBE,
run over a finite stream of received items.  The failure counter check
happens at the top of each loop iteration, before the next receive; the
counter is incremented on receive errors and never reset.  A `"RESET"`
status reply exits cleanly; a reply whose parse fails is skipped; a
well-formed `"message"` reply deletes its keys from the cache
(`redis.ErrNil` on the key slot passes through with no keys). -/
def invalidationsReceiver (fails : Nat) (c : Cache) : List RItem → ROut
  | [] => if 5 ≤ fails then .closedErr c else .pending fails c
  | item :: rest =>
    if 5 ≤ fails then .closedErr c
    else
      match item with
      | .fail => invalidationsReceiver (fails + 1) c rest
      | .ok v =>
        if v = .simple "RESET" then .clean c
        else
          match redisValues (.ok v) with
          | .error _ => invalidationsReceiver fails c rest
          | .ok vs =>
            match vs.get? 0 with
            | none => .panicked c
            | some v0 =>
              let replyType := match rvalToString v0 with
                | .ok s => s
                | .error _ => ""
              if replyType ≠ "message" then invalidationsReceiver fails c rest
              else
                match vs.get? 2 with
                | none => .panicked c
                | some v2 =>
                  match redisStrings (.ok v2) with
                  | .ok keys => invalidationsReceiver fails (Cache.delete c keys) rest
                  | .error .nilE => invalidationsReceiver fails (Cache.delete c []) rest
                  | .error _ => invalidationsReceiver fails c rest

/-- The longest run of consecutive receive errors in an item stream. -/
def maxConsecFails (items : List RItem) : Nat :=
  (go items 0).2
where
  go : List RItem → Nat → Nat × Nat
    | [], cur => (cur, cur)
    | .fail :: rest, cur =>
      let (c', m) := go rest (cur + 1)
      (c', max m (cur + 1))
    | .ok _ :: rest, _ =>
      let (c', m) := go rest 0
      (c', m)

/-- A well-formed invalidation push for the given keys, as Redis sends
it on `__redis__:invalidate`. -/
def invMsg (keys : List String) : RVal :=
  .arr [.bulk "message", .bulk "__redis__:invalidate", .arr (keys.map .bulk)]

/-- State of the `TrackingPool` as seen by its throttling logic: the
`active` counter (clients created, in use or in the free list) and the
size of the free list.  Connection handles are immaterial to the
throttle. -/
structure TPool where
  active : Nat
  free : Nat
deriving DecidableEq, Repr

/-- Errors of `TrackingPool.Get`: the throttle error
`ErrTooManyActiveClients` or a dial/registration error. -/
inductive TErr where
  | tooMany
  | dial (e : RErr)
deriving DecidableEq, Repr

/-- Models `TrackingPool.Get` on the `Wait = false` path (pool.go lines 54-119,
with `p.options.Wait` false): when `MaxActive > 0` and the active count
has reached it, fail with `ErrTooManyActiveClients`; otherwise serve
from the free list, or dial a fresh client (`createOK` scripts the
combined outcome of the two dials, CLIENT ID and CLIENT TRACKING) and
only then increment `active`. -/
def tpoolGet (maxActive : Nat) (p : TPool) (createOK : Except RErr Unit) :
    Except TErr Unit × TPool :=
  if 0 < maxActive ∧ maxActive ≤ p.active then (.error .tooMany, p)
  else if 0 < p.free then (.ok (), { p with free := p.free - 1 })
  else
    match createOK with
    | .error e => (.error (.dial e), p)
    | .ok _ => (.ok (), { p with active := p.active + 1 })

/-- The pool operations an application can drive: a `Get` (with its
scripted dial outcome) or a `Close` of a vended client, which returns it
to the free list (`putFree`). -/
inductive TOp where
  | get (createOK : Except RErr Unit)
  | put
deriving DecidableEq, Repr

/-- One pool operation applied to the pool state. -/
def tpoolStep (maxActive : Nat) (p : TPool) : TOp → TPool
  | .get s => (tpoolGet maxActive p s).2
  | .put => { p with free := p.free + 1 }

/-- A sequence of pool operations applied from a state. -/
def tpoolExec (maxActive : Nat) : TPool → List TOp → TPool
  | p, [] => p
  | p, op :: rest => tpoolExec maxActive (tpoolStep maxActive p op) rest

/-- Modelled from the spec: the head revision of pool.go (the
`BroadcastingPool` with an out-of-sync flag and a once-per-second
supervisor loop, described in the spec's BroadcastingPool section) is
not among the source files, which hold only an older revision that
merely sets a closed flag.  This state carries the out-of-sync flag, the
pinger's consecutive-failure count, the shared cache, the generation of
the two connections (incremented whenever both are closed and reopened)
and the number of times CLIENT ID + CLIENT TRACKING have been issued. -/
structure BPState where
  outOfSync : Bool
  pfails : Nat
  cache : Cache
  connGen : Nat
  regCount : Nat
deriving DecidableEq, Repr

/-- Events of the broadcasting pool model: a ping round trip succeeding
or failing, a supervisor tick whose reconnect attempt succeeds or fails,
and the pool serving a request. -/
inductive BPEv where
  | pingOk
  | pingFail
  | tick (reconnectOK : Bool)
  | serve
deriving DecidableEq, Repr

/-- Modelled from the spec: one transition of the broadcasting pool.
The pinger resets its consecutive-failure count on success and sets the
out-of-sync flag at the fifth consecutive failure; the supervisor tick,
when out-of-sync, closes and reopens both connections (generation
bump), reissues CLIENT ID + CLIENT TRACKING, flushes the shared cache
and clears the flag, retrying on the next tick when the reconnect
fails; serving is refused (`none`) while out-of-sync. -/
def bpoolStep (s : BPState) : BPEv → Option BPState
  | .pingOk => some { s with pfails := 0 }
  | .pingFail =>
    let f := s.pfails + 1
    some { s with pfails := f, outOfSync := s.outOfSync || decide (5 ≤ f) }
  | .tick ok =>
    if s.outOfSync then
      if ok then
        some { outOfSync := false, pfails := 0, cache := s.cache.flush,
               connGen := s.connGen + 1, regCount := s.regCount + 1 }
      else some s
    else some s
  | .serve => if s.outOfSync then none else some s

/-- A sequence of broadcasting pool events applied from a state; a
refused event aborts the trace. -/
def bpoolExec : BPState → List BPEv → Option BPState
  | s, [] => some s
  | s, e :: rest =>
    match bpoolStep s e with
    | none => none
    | some s' => bpoolExec s' rest

/-- Every key argument of every Redis command sent and of every
local-cache operation performed carries the key prefix `p`. -/
def allKeysPfx (p : String) {α : Type} (r : OpResult α) : Prop :=
  (∀ c ∈ r.sent, ∀ q ∈ c.keys, ∃ k0, q = p ++ k0) ∧
  (∀ c ∈ r.cops, ∀ q ∈ c.keys, ∃ k0, q = p ++ k0)

theorem evictSize_pos (n : Nat) : 1 ≤ Cache.evictSize n := by
  simp only [Cache.evictSize]
  split <;> omega

theorem evictSize_lt (n : Nat) (h : 2 ≤ n) : Cache.evictSize n < n := by
  have h1 : 0 < (n + 19) / 20 := Nat.div_pos (by omega) (by omega)
  have h2 : (n + 19) / 20 < n := by
    rw [Nat.div_lt_iff_lt_mul (by omega)]
    omega
  simp only [Cache.evictSize]
  split <;> omega

theorem insertE_length_le (es : List (String × CEntry)) (k : String)
    (e : CEntry) : (Cache.insertE es k e).length ≤ es.length + 1 := by
  induction es with
  | nil => simp [Cache.insertE]
  | cons p t ih =>
    simp only [Cache.insertE]
    split
    · simp
    · simp only [List.length_cons]
      omega

/-- C7: the claim that `set` never panics is right per the spec (the
operation table records no errors for `set` and eviction "never blocks a
write"), but the code is wrong: with `max_entries = 1` a `set` on a full
cache reaches `rand.Intn(len(entries) - size)` with argument 0, which
panics.  This theorem evaluates the embedded `set` at that failing
input: the result is the panic value `none`. -/
theorem set_panics_on_full_singleton :
    Cache.set 0 0 ⟨1, [("a", ⟨some "v", none⟩)], 0, 0, 0, 0⟩ "b"
      (some "w") 60 = none := by decide

/-- C8 counterexample: a cache with `max_entries = 1` holding one entry
has population `P = 1 ≥ max_entries`, yet the set does not complete
removing `ceil(0.05 × P) = 1` entry as the claim states — `evictKeys`
panics in `rand.Intn(0)` (the claimed offset range `[0, P − batch)` is
empty), so there is no completed set at all. -/
theorem set_eviction_claim_cex :
    Cache.set 0 0 ⟨1, [("x", ⟨some "u", none⟩)], 0, 0, 0, 0⟩ "y"
      (some "w") 5 = none := by decide

/-- C8 (amended): for every set on a cache whose population `P` equals
`max_entries` (the only reachable full state) with `P ≥ 2`, `evictKeys`
runs first with an offset drawn from `[0, P − batch)` and removes
exactly `ceil(0.05 × P)` (minimum 1) entries of the map iteration order,
incrementing the evictions counter by exactly that count, and after the
completed set `len(entries) ≤ max_entries`; for `P = 1` the code panics
instead (see the counterexample). -/
theorem set_eviction_exact (c : Cache) (off : Nat) (now : Int)
    (key : String) (val : Option String) (ttl : Int)
    (hfull : c.maxEntries = c.entries.length)
    (h2 : 2 ≤ c.entries.length)
    (hoff : off < c.entries.length - Cache.evictSize c.entries.length) :
    ∃ ce cf, Cache.evictKeys off c = some ce ∧
      ce.entries.length = c.entries.length - Cache.evictSize c.entries.length ∧
      ce.evictions = c.evictions + Cache.evictSize c.entries.length ∧
      Cache.set off now c key val ttl = some cf ∧
      cf.entries = Cache.insertE ce.entries key
        ⟨val, if ttl > 0 then some (now + ttl) else none⟩ ∧
      cf.evictions = ce.evictions ∧
      cf.entries.length ≤ c.maxEntries := by
  have hs1 : 1 ≤ Cache.evictSize c.entries.length := evictSize_pos _
  have hsn : Cache.evictSize c.entries.length < c.entries.length :=
    evictSize_lt _ h2
  have hoff' : off + Cache.evictSize c.entries.length ≤ c.entries.length := by
    omega
  have hremlen :
      (c.entries.take off ++
        c.entries.drop (off + Cache.evictSize c.entries.length)).length =
      c.entries.length - Cache.evictSize c.entries.length := by
    simp only [List.length_append, List.length_take, List.length_drop]
    omega
  have hev : Cache.evictKeys off c = some
      { c with
        entries := c.entries.take off ++
          c.entries.drop (off + Cache.evictSize c.entries.length),
        evictions := c.evictions + Cache.evictSize c.entries.length } := by
    simp only [Cache.evictKeys]
    rw [if_neg (by omega)]
    rw [hremlen]
    congr 1
    congr 1
    omega
  have hset : Cache.set off now c key val ttl = some
      { c with
        entries := Cache.insertE
          (c.entries.take off ++
            c.entries.drop (off + Cache.evictSize c.entries.length)) key
          ⟨val, if ttl > 0 then some (now + ttl) else none⟩,
        evictions := c.evictions + Cache.evictSize c.entries.length } := by
    simp only [Cache.set, ge_iff_le, hfull, le_refl, if_pos, hev,
      Option.bind_eq_bind, Option.some_bind]
    rfl
  refine ⟨_, _, hev, hremlen, rfl, hset, rfl, rfl, ?_⟩
  calc (Cache.insertE
          (c.entries.take off ++
            c.entries.drop (off + Cache.evictSize c.entries.length)) key
          ⟨val, if ttl > 0 then some (now + ttl) else none⟩).length
        ≤ (c.entries.take off ++
            c.entries.drop (off + Cache.evictSize c.entries.length)).length
            + 1 := insertE_length_le _ _ _
      _ ≤ c.maxEntries := by rw [hremlen]; omega

/-- C8 witness: the amended statement instantiated on a concrete full
cache of two entries. -/
theorem set_eviction_exact_witness :
    ∃ ce cf,
      Cache.evictKeys 0
        ⟨2, [("a", ⟨some "u", none⟩), ("b", ⟨some "v", none⟩)],
          0, 0, 0, 0⟩ = some ce ∧
      ce.entries.length = 1 ∧
      ce.evictions = 1 ∧
      Cache.set 0 7
        ⟨2, [("a", ⟨some "u", none⟩), ("b", ⟨some "v", none⟩)],
          0, 0, 0, 0⟩ "k" (some "w") 9 = some cf ∧
      cf.entries = Cache.insertE ce.entries "k" ⟨some "w", some 16⟩ ∧
      cf.evictions = ce.evictions ∧
      cf.entries.length ≤ 2 := by
  have h := set_eviction_exact
    ⟨2, [("a", ⟨some "u", none⟩), ("b", ⟨some "v", none⟩)], 0, 0, 0, 0⟩
    0 7 "k" (some "w") 9 (by decide) (by decide) (by decide)
  simpa using h

theorem tpoolStep_active_le (M : Nat) (p : TPool) (op : TOp)
    (hM : 0 < M) (h : p.active ≤ M) : (tpoolStep M p op).active ≤ M := by
  cases op with
  | put => simpa using h
  | get s =>
    simp only [tpoolStep, tpoolGet]
    by_cases hfull : 0 < M ∧ M ≤ p.active
    · rw [if_pos hfull]
      exact h
    · rw [if_neg hfull]
      by_cases hfree : 0 < p.free
      · rw [if_pos hfree]
        exact h
      · rw [if_neg hfree]
        cases s with
        | error e => exact h
        | ok u =>
          simp only
          omega

/-- C10: for a TrackingPool on the `Wait = false` path with
`MaxActive = M > 0`, `Get` fails with `ErrTooManyActiveClients` exactly
when the active count (clients created, in use or in the free list) has
reached `M` at the time of the call; on that failure the pool state is
unchanged (no client created, active count untouched); and along every
sequence of `Get`/`putFree` operations from the fresh pool, `active ≤ M`
holds in every reachable state. -/
theorem tracking_pool_limit (M : Nat) (hM : 0 < M) :
    (∀ (p : TPool) (s : Except RErr Unit),
      ((tpoolGet M p s).1 = Except.error TErr.tooMany ↔ M ≤ p.active)) ∧
    (∀ (p : TPool) (s : Except RErr Unit), M ≤ p.active →
      tpoolGet M p s = (.error .tooMany, p)) ∧
    (∀ ops : List TOp, (tpoolExec M ⟨0, 0⟩ ops).active ≤ M) := by
  refine ⟨?_, ?_, ?_⟩
  · intro p s
    rw [tpoolGet.eq_def]
    by_cases hge : M ≤ p.active
    · rw [if_pos ⟨hM, hge⟩]
      simp [hge]
    · rw [if_neg (fun hc : 0 < M ∧ M ≤ p.active => hge hc.2)]
      by_cases hfree : 0 < p.free
      · rw [if_pos hfree]
        simp [hge]
      · rw [if_neg hfree]
        cases s with
        | error e => simp [hge]
        | ok u => simp [hge]
  · intro p s hge
    rw [tpoolGet.eq_def, if_pos ⟨hM, hge⟩]
  · intro ops
    have key : ∀ (ops : List TOp) (p : TPool), p.active ≤ M →
        (tpoolExec M p ops).active ≤ M := by
      intro ops
      induction ops with
      | nil => intro p h; simpa [tpoolExec] using h
      | cons op rest ih =>
        intro p h
        exact ih _ (tpoolStep_active_le M p op hM h)
    exact key ops ⟨0, 0⟩ (Nat.zero_le M)

/-- C10 witness: with `MaxActive = 1`, a `Get` on a pool whose active
count is 1 fails with the throttle error leaving the state unchanged,
and two consecutive `Get`s from the fresh pool keep `active ≤ 1`. -/
theorem tracking_pool_limit_witness :
    tpoolGet 1 ⟨1, 0⟩ (.ok ()) = (.error .tooMany, ⟨1, 0⟩) ∧
    (tpoolExec 1 ⟨0, 0⟩ [.get (.ok ()), .get (.ok ())]).active ≤ 1 := by
  have h := tracking_pool_limit 1 (by decide)
  exact ⟨h.2.1 ⟨1, 0⟩ (.ok ()) (by decide), h.2.2 _⟩

/-- C2 (spec-modelled): in the broadcasting-pool model, the fifth
consecutive PING failure sets the out-of-sync flag (the counter resets
on a successful PING); while out-of-sync, serving is refused — a serve
event aborts every trace; and the only transition that clears the flag
is the supervisor rebuild, which flushes the shared cache, closes and
reopens both connections (generation bump) and reissues CLIENT ID +
CLIENT TRACKING.  Hence every out-of-sync transition is followed by
flush and reconnect before serving resumes. -/
theorem bpool_oos_rebuild_before_serving :
    (∀ s : BPState, s.outOfSync = true → bpoolStep s .serve = none) ∧
    (∀ (s : BPState) (events : List BPEv), s.outOfSync = true →
      bpoolExec s (.serve :: events) = none) ∧
    (∀ (s s' : BPState) (e : BPEv), bpoolStep s e = some s' →
      s.outOfSync = true → s'.outOfSync = false →
      s'.cache = s.cache.flush ∧ s'.connGen = s.connGen + 1 ∧
        s'.regCount = s.regCount + 1) ∧
    (∀ (s s' : BPState), bpoolStep s .pingFail = some s' →
      s'.pfails = s.pfails + 1 ∧ (5 ≤ s'.pfails → s'.outOfSync = true)) ∧
    (∀ (s s' : BPState), bpoolStep s .pingOk = some s' → s'.pfails = 0) := by
  refine ⟨?_, ?_, ?_, ?_, ?_⟩
  · intro s h
    simp [bpoolStep, h]
  · intro s events h
    simp [bpoolExec, bpoolStep, h]
  · intro s s' e hstep h1 h2
    cases e with
    | pingOk =>
      have hx : bpoolStep s .pingOk = some { s with pfails := 0 } := rfl
      rw [hx] at hstep
      injection hstep with hs
      subst hs
      have h2' : s.outOfSync = false := h2
      rw [h1] at h2'
      exact Bool.noConfusion h2'
    | pingFail =>
      simp only [bpoolStep] at hstep
      injection hstep with hs
      subst hs
      have h2' : (s.outOfSync || decide (5 ≤ s.pfails + 1)) = false := h2
      rw [h1] at h2'
      exact Bool.noConfusion h2'
    | tick ok =>
      cases ok with
      | true =>
        have hx : bpoolStep s (.tick true) = some
            { outOfSync := false, pfails := 0, cache := s.cache.flush,
              connGen := s.connGen + 1, regCount := s.regCount + 1 } := by
          simp [bpoolStep, h1]
        rw [hx] at hstep
        injection hstep with hs
        subst hs
        exact ⟨rfl, rfl, rfl⟩
      | false =>
        have hx : bpoolStep s (.tick false) = some s := by
          simp [bpoolStep, h1]
        rw [hx] at hstep
        injection hstep with hs
        subst hs
        rw [h1] at h2
        exact Bool.noConfusion h2
    | serve =>
      have hx : bpoolStep s .serve = none := by
        simp [bpoolStep, h1]
      rw [hx] at hstep
      exact Option.noConfusion hstep
  · intro s s' hstep
    simp only [bpoolStep] at hstep
    injection hstep with hs
    subst hs
    refine ⟨rfl, ?_⟩
    intro h5
    show (s.outOfSync || decide (5 ≤ s.pfails + 1)) = true
    have h5' : 5 ≤ s.pfails + 1 := h5
    rw [decide_eq_true h5']
    exact Bool.or_true _
  · intro s s' hstep
    have hx : bpoolStep s .pingOk = some { s with pfails := 0 } := rfl
    rw [hx] at hstep
    injection hstep with hs
    subst hs
    rfl

/-- C2 witness: a concrete out-of-sync state refuses to serve, and its
rebuild tick flushes the cache, bumps the connection generation and
reissues the registration. -/
theorem bpool_oos_rebuild_witness :
    bpoolStep ⟨true, 5, ⟨4, [("k", ⟨some "v", none⟩)], 1, 2, 3, 4⟩, 0, 1⟩
      .serve = none ∧
    (∀ s', bpoolStep ⟨true, 5, ⟨4, [("k", ⟨some "v", none⟩)], 1, 2, 3, 4⟩, 0, 1⟩
        (.tick true) = some s' → s'.outOfSync = false →
      s'.cache = Cache.flush ⟨4, [("k", ⟨some "v", none⟩)], 1, 2, 3, 4⟩ ∧
        s'.connGen = 1 ∧ s'.regCount = 2) := by
  refine ⟨bpool_oos_rebuild_before_serving.1 _ rfl, ?_⟩
  intro s' hstep h2
  exact bpool_oos_rebuild_before_serving.2.2.1 _ s' (.tick true) hstep rfl h2

theorem mapE_bulk (ks : List String) :
    mapE rvalToString (ks.map RVal.bulk) = .ok ks := by
  induction ks with
  | nil => simp [mapE]
  | cons k rest ih => simp [mapE, rvalToString, ih]

/-- C3 (amended): the invalidation receiver exits cleanly exactly on a
`"RESET"` status reply; it exits with the Closed error exactly when the
cumulative count of receive errors reaches five — the counter is
incremented on each receive error and never reset, so the five failures
need not be consecutive; a reply whose parse fails (non-array reply, or
a push whose first element is not `"message"`) is skipped without
touching the failure counter; and a well-formed invalidation push
deletes its keys and continues, also without touching the counter. -/
theorem receiver_characterization :
    (∀ (fails : Nat) (c : Cache) (rest : List RItem), fails < 5 →
      invalidationsReceiver fails c (.ok (.simple "RESET") :: rest) =
        .clean c) ∧
    (∀ (fails : Nat) (c : Cache) (rest : List RItem), fails < 5 →
      invalidationsReceiver fails c (.fail :: rest) =
        invalidationsReceiver (fails + 1) c rest) ∧
    (∀ (fails : Nat) (c : Cache) (items : List RItem), 5 ≤ fails →
      invalidationsReceiver fails c items = .closedErr c) ∧
    (∀ (fails : Nat) (c : Cache) (rest : List RItem) (v : RVal) (e : RErr),
      fails < 5 → v ≠ .simple "RESET" → redisValues (.ok v) = .error e →
      invalidationsReceiver fails c (.ok v :: rest) =
        invalidationsReceiver fails c rest) ∧
    (∀ (fails : Nat) (c : Cache) (rest : List RItem) (v0 : RVal)
        (vs : List RVal), fails < 5 →
      (match rvalToString v0 with | .ok s => s | .error _ => "") ≠ "message" →
      invalidationsReceiver fails c (.ok (.arr (v0 :: vs)) :: rest) =
        invalidationsReceiver fails c rest) ∧
    (∀ (fails : Nat) (c : Cache) (rest : List RItem) (ks : List String),
      fails < 5 →
      invalidationsReceiver fails c (.ok (invMsg ks) :: rest) =
        invalidationsReceiver fails (Cache.delete c ks) rest) := by
  refine ⟨?_, ?_, ?_, ?_, ?_, ?_⟩
  · intro fails c rest h
    simp [invalidationsReceiver, Nat.not_le.mpr h]
  · intro fails c rest h
    simp [invalidationsReceiver, Nat.not_le.mpr h]
  · intro fails c items h
    cases items with
    | nil => simp [invalidationsReceiver, h]
    | cons i rest => simp [invalidationsReceiver, h]
  · intro fails c rest v e h hne hverr
    simp [invalidationsReceiver, Nat.not_le.mpr h, hne, hverr]
  · intro fails c rest v0 vs h hne
    simp [invalidationsReceiver, Nat.not_le.mpr h, redisValues, hne]
  · intro fails c rest ks h
    simp [invalidationsReceiver, Nat.not_le.mpr h, invMsg, redisValues,
      rvalToString, redisStrings, mapE_bulk]

/-- C3 counterexample: a stream whose longest run of consecutive receive
errors is 1 (errors interleaved with well-formed pushes) still makes the
receiver return the Closed error after the fifth cumulative error —
refuting the claim that the Closed exit happens exactly on five
consecutive errors with the count reset by a successful receive. -/
theorem receiver_nonconsecutive_cex :
    invalidationsReceiver 0 ⟨10, [], 0, 0, 0, 0⟩
      [.fail, .ok (invMsg ["k"]), .fail, .ok (invMsg ["k"]), .fail,
       .ok (invMsg ["k"]), .fail, .ok (invMsg ["k"]), .fail] =
      .closedErr ⟨10, [], 0, 0, 0, 0⟩ ∧
    maxConsecFails
      [.fail, .ok (invMsg ["k"]), .fail, .ok (invMsg ["k"]), .fail,
       .ok (invMsg ["k"]), .fail, .ok (invMsg ["k"]), .fail] = 1 := by
  constructor
  · decide
  · decide

/-- C3 witness: the amended characterization applied to concrete
streams: a `"RESET"` reply exits cleanly and a receive error increments
the cumulative counter. -/
theorem receiver_characterization_witness :
    invalidationsReceiver 0 ⟨5, [], 0, 0, 0, 0⟩ [.ok (.simple "RESET")] =
      .clean ⟨5, [], 0, 0, 0, 0⟩ ∧
    invalidationsReceiver 4 ⟨5, [], 0, 0, 0, 0⟩ [.fail] =
      invalidationsReceiver 5 ⟨5, [], 0, 0, 0, 0⟩ [] := by
  exact ⟨receiver_characterization.1 0 _ [] (by decide),
    receiver_characterization.2.1 4 _ [] (by decide)⟩

/-- C4 (amended): for every Client whose closed flag is set, Get,
GetEntry, Set and Delete return the Closed error, leave the local cache
unchanged and issue no Redis command; GetEntries, however, never checks
the closed flag and proceeds normally (see the counterexample). -/
theorem closed_client_ops_fail (opts : PoolOptions) (cl : ClientState)
    (h : cl.closed = true) :
    (∀ (now : Int) (off1 off2 : Nat) (f : Cache → Cache) (key : String),
      clientGetEntry opts cl now off1 off2 f key =
        some ⟨.error .closedE, cl.cache, cl.conn, [], []⟩) ∧
    (∀ (now : Int) (off1 off2 : Nat) (f : Cache → Cache) (key : String),
      clientGetEntryPub opts cl now off1 off2 f key =
        some ⟨.error .closedE, cl.cache, cl.conn, [], []⟩) ∧
    (∀ (now : Int) (off1 off2 : Nat) (f : Cache → Cache) (key : String),
      clientGet opts cl now off1 off2 f key =
        some ⟨.error .closedE, cl.cache, cl.conn, [], []⟩) ∧
    (∀ (key : String) (v : Option String) (ttl : Int),
      clientSet opts cl key v ttl =
        ⟨.error .closedE, cl.cache, cl.conn, [], []⟩) ∧
    (∀ keys : List String,
      clientDelete opts cl keys =
        ⟨.error .closedE, cl.cache, cl.conn, [], []⟩) := by
  refine ⟨?_, ?_, ?_, ?_, ?_⟩
  · intro now off1 off2 f key
    simp [clientGetEntry, h]
  · intro now off1 off2 f key
    simp [clientGetEntryPub, clientGetEntry, h]
  · intro now off1 off2 f key
    simp [clientGet, clientGetEntry, h, Except.map]
  · intro key v ttl
    simp [clientSet, h]
  · intro keys
    simp [clientDelete, h]

/-- C4 counterexample: a closed client calling GetEntries on key `"a"`
does not get the Closed error (first component `false`), issues
MGET/MULTI/TTL/EXEC on the data connection, and grows the local cache to
one entry — refuting the claim that every surface operation of a closed
client fails with Closed, leaves the cache unchanged, and issues no
command. -/
theorem getentries_ignores_closed_cex :
    (clientGetEntries ⟨""⟩ ⟨true, ⟨10, [], 0, 0, 0, 0⟩,
        [.ok (.arr [.bulk "v"]), .ok (.arr [.intv 60])]⟩ 100 [] ["a"]).map
      (fun r => (decide (r.res = Except.error CscErr.closedE), r.sent,
        r.cache.entries.length)) =
    some (false,
      [⟨"MGET", ["a"]⟩, ⟨"MULTI", []⟩, ⟨"TTL", ["a"]⟩, ⟨"EXEC", []⟩], 1) := by
  decide

/-- C4 witness: the amended statement applied to a concrete closed
client. -/
theorem closed_client_ops_fail_witness :
    clientGetEntry ⟨""⟩ ⟨true, ⟨10, [], 0, 0, 0, 0⟩, []⟩ 0 0 0 id "k" =
      some ⟨.error .closedE, ⟨10, [], 0, 0, 0, 0⟩, [], [], []⟩ ∧
    clientSet ⟨""⟩ ⟨true, ⟨10, [], 0, 0, 0, 0⟩, []⟩ "k" (some "v") 60 =
      ⟨.error .closedE, ⟨10, [], 0, 0, 0, 0⟩, [], [], []⟩ ∧
    clientDelete ⟨""⟩ ⟨true, ⟨10, [], 0, 0, 0, 0⟩, []⟩ ["k"] =
      ⟨.error .closedE, ⟨10, [], 0, 0, 0, 0⟩, [], [], []⟩ := by
  have h := closed_client_ops_fail ⟨""⟩ ⟨true, ⟨10, [], 0, 0, 0, 0⟩, []⟩ rfl
  exact ⟨h.1 0 0 0 id "k", h.2.2.2.1 "k" (some "v") 60, h.2.2.2.2 ["k"]⟩

theorem lookupE_delete_self (c : Cache) (k : String) :
    Cache.lookupE (Cache.delete c [k]).entries k = none := by
  simp only [Cache.delete, Cache.lookupE, Option.map_eq_none']
  rw [List.find?_eq_none]
  intro x hx
  rw [List.mem_filter] at hx
  have h2 := hx.2
  simp only [List.contains_cons, List.contains_nil, Bool.or_false,
    decide_not, Bool.not_eq_true', decide_eq_false_iff_not] at h2
  simp only [decide_eq_true_eq]
  intro heq
  exact h2 (by simp [heq])

/-- C9: whenever a Redis error occurs inside `Client.Get`/`GetEntry` (on
the GET round trip, on converting its reply to bytes, or on the TTL
round trip), the operation deletes the (prefixed) key from the local
cache, issues DEL for that key on the data connection, and returns the
error; no fetched value remains in the local cache for that key on the
error path. -/
theorem redis_error_cleanup (opts : PoolOptions) (cl : ClientState)
    (now : Int) (off1 off2 : Nat) (f : Cache → Cache) (key0 : String)
    (res : OpResult Entry) (e : RErr)
    (hrun : clientGetEntry opts cl now off1 off2 f key0 = some res)
    (herr : res.res = .error (.redis e)) :
    Cache.lookupE res.cache.entries (pfxKey opts key0) = none ∧
    (⟨"DEL", [pfxKey opts key0]⟩ : Cmd) ∈ res.sent := by
  simp only [clientGetEntry] at hrun
  split at hrun
  · injection hrun with h
    rw [← h] at herr
    simp at herr
  · split at hrun
    · injection hrun with h
      rw [← h] at herr
      simp at herr
    · split at hrun
      · exact Option.noConfusion hrun
      · split at hrun
        · -- GET round trip / bytes conversion error
          injection hrun with h
          rw [← h] at herr ⊢
          refine ⟨lookupE_delete_self _ _, ?_⟩
          simp
        · split at hrun
          · -- TTL error
            injection hrun with h
            rw [← h] at herr ⊢
            refine ⟨lookupE_delete_self _ _, ?_⟩
            simp
          · -- success paths: the result is ok, contradicting herr
            split at hrun
            · split at hrun
              · exact Option.noConfusion hrun
              · injection hrun with h
                rw [← h] at herr
                simp at herr
            · injection hrun with h
              rw [← h] at herr
              simp at herr

/-- C9 witness: a concrete run whose GET round trip fails with an I/O
error deletes the key locally and issues DEL for it. -/
theorem redis_error_cleanup_witness :
    Cache.lookupE
      ((⟨.error (.redis (.io 7)), ⟨10, [], 0, 1, 0, 0⟩, [],
        [⟨"GET", ["k"]⟩, ⟨"DEL", ["k"]⟩],
        [⟨"cache.getEntry", ["k"]⟩, ⟨"cache.set", ["k"]⟩,
          ⟨"cache.delete", ["k"]⟩]⟩ : OpResult Entry)).cache.entries
      (pfxKey ⟨""⟩ "k") = none ∧
    (⟨"DEL", [pfxKey ⟨""⟩ "k"]⟩ : Cmd) ∈
      ((⟨.error (.redis (.io 7)), ⟨10, [], 0, 1, 0, 0⟩, [],
        [⟨"GET", ["k"]⟩, ⟨"DEL", ["k"]⟩],
        [⟨"cache.getEntry", ["k"]⟩, ⟨"cache.set", ["k"]⟩,
          ⟨"cache.delete", ["k"]⟩]⟩ : OpResult Entry)).sent :=
  redis_error_cleanup ⟨""⟩ ⟨false, ⟨10, [], 0, 0, 0, 0⟩,
      [.error (.io 7), .ok (.simple "OK")]⟩ 100 0 0 id "k"
      ⟨.error (.redis (.io 7)), ⟨10, [], 0, 1, 0, 0⟩, [],
        [⟨"GET", ["k"]⟩, ⟨"DEL", ["k"]⟩],
        [⟨"cache.getEntry", ["k"]⟩, ⟨"cache.set", ["k"]⟩,
          ⟨"cache.delete", ["k"]⟩]⟩ (.io 7) (by decide) rfl

/-- C5 (amended): no successful `Get`/`GetEntry` ever serves a local hit
whose data equals the sentinel (the hit path requires the cached data to
be non-nil and different from the sentinel); `GetEntries`, whose
local-hit check only tests the data against nil, can return an entry
whose data is the sentinel (see the counterexample), and the remote
fetch path returns whatever bytes the server supplies. -/
theorem localhit_never_sentinel (opts : PoolOptions) (cl : ClientState)
    (now : Int) (off1 off2 : Nat) (f : Cache → Cache) (key0 : String)
    (res : OpResult Entry) (e : Entry)
    (hrun : clientGetEntry opts cl now off1 off2 f key0 = some res)
    (hok : res.res = .ok e) (hhit : e.localHit = true) :
    e.data ≠ some cacheInProgressSentinel ∧ e.data ≠ none := by
  simp only [clientGetEntry] at hrun
  split at hrun
  · injection hrun with h
    rw [← h] at hok
    simp at hok
  · split at hrun
    next hhitcond =>
      injection hrun with h
      rw [← h] at hok
      simp only [Except.ok.injEq] at hok
      obtain ⟨h1, h2, h3⟩ := hhitcond
      refine ⟨?_, ?_⟩
      · intro hd
        rw [← hok] at hd
        simp only at hd
        apply h3
        rw [hd]
        rfl
      · intro hd
        rw [← hok] at hd
        simp only at hd
        rw [hd] at h2
        simp at h2
    next =>
      split at hrun
      · exact Option.noConfusion hrun
      · split at hrun
        · injection hrun with h
          rw [← h] at hok
          simp at hok
        · split at hrun
          · injection hrun with h
            rw [← h] at hok
            simp at hok
          · split at hrun
            · split at hrun
              · exact Option.noConfusion hrun
              · injection hrun with h
                rw [← h] at hok
                simp only [Except.ok.injEq] at hok
                rw [← hok] at hhit
                simp at hhit
            · injection hrun with h
              rw [← h] at hok
              simp only [Except.ok.injEq] at hok
              rw [← hok] at hhit
              simp at hhit

/-- C5 counterexample: with the local entry for `"a"` holding the
sentinel (a fetch in flight), a successful `GetEntries(["a","b"])`
returns the sentinel bytes as a local hit for `"a"` — refuting the claim
that no successful operation ever returns an entry whose data equals the
sentinel. -/
theorem getentries_serves_sentinel_cex :
    (clientGetEntries ⟨""⟩ ⟨false,
        ⟨10, [("a", ⟨some cacheInProgressSentinel, some 130⟩)], 0, 0, 0, 0⟩,
        [.ok (.arr [.bulk "v"]), .ok (.arr [.intv 60])]⟩ 100 []
        ["a", "b"]).map
      (fun r => r.res.map (fun es => es.map (fun e => (e.data, e.localHit)))) =
    some (.ok [(some cacheInProgressSentinel, true), (some "v", false)]) := by
  decide

/-- C5 witness: the amended statement applied to a concrete local hit. -/
theorem localhit_never_sentinel_witness :
    (⟨some "w", some 150, true⟩ : Entry).data ≠ some cacheInProgressSentinel ∧
    (⟨some "w", some 150, true⟩ : Entry).data ≠ none :=
  localhit_never_sentinel ⟨""⟩
    ⟨false, ⟨10, [("k", ⟨some "w", some 150⟩)], 0, 0, 0, 0⟩, []⟩ 100 0 0 id "k"
    ⟨.ok ⟨some "w", some 150, true⟩,
      ⟨10, [("k", ⟨some "w", some 150⟩)], 1, 0, 0, 0⟩, [], [],
      [⟨"cache.getEntry", ["k"]⟩]⟩ ⟨some "w", some 150, true⟩
    (by decide) rfl rfl

theorem allKeysPfx_of_all_single {α : Type} (p k0 : String) (r : OpResult α)
    (hs : ∀ c ∈ r.sent, c.keys = [p ++ k0])
    (hc : ∀ c ∈ r.cops, c.keys = [p ++ k0]) :
    allKeysPfx p r := by
  constructor
  · intro c hmem q hq
    rw [hs c hmem] at hq
    simp only [List.mem_singleton] at hq
    exact ⟨k0, hq⟩
  · intro c hmem q hq
    rw [hc c hmem] at hq
    simp only [List.mem_singleton] at hq
    exact ⟨k0, hq⟩

/-- C6 (amended): when the pool option KeyPrefix is non-empty, every key
used by Get, GetEntry, Set and Delete is prefixed with it, both in the
Redis commands issued on the data connection and in every local-cache
operation the call performs; GetEntries, however, applies no prefix at
all — its Redis commands and cache operations use the caller's keys
verbatim (see the counterexample). -/
theorem ops_apply_key_pfx (opts : PoolOptions) (hp : opts.kpfx ≠ "") :
    (∀ (cl : ClientState) (now : Int) (off1 off2 : Nat) (f : Cache → Cache)
        (key0 : String) (res : OpResult Entry),
      clientGetEntry opts cl now off1 off2 f key0 = some res →
      allKeysPfx opts.kpfx res) ∧
    (∀ (cl : ClientState) (now : Int) (off1 off2 : Nat) (f : Cache → Cache)
        (key0 : String) (res : OpResult (Option String)),
      clientGet opts cl now off1 off2 f key0 = some res →
      allKeysPfx opts.kpfx res) ∧
    (∀ (cl : ClientState) (key0 : String) (v : Option String) (ttl : Int),
      allKeysPfx opts.kpfx (clientSet opts cl key0 v ttl)) ∧
    (∀ (cl : ClientState) (keys : List String),
      allKeysPfx opts.kpfx (clientDelete opts cl keys)) := by
  have hpk : ∀ k0 : String, pfxKey opts k0 = opts.kpfx ++ k0 := by
    intro k0
    simp [pfxKey, hp]
  have hmain : ∀ (cl : ClientState) (now : Int) (off1 off2 : Nat)
      (f : Cache → Cache) (key0 : String) (res : OpResult Entry),
      clientGetEntry opts cl now off1 off2 f key0 = some res →
      allKeysPfx opts.kpfx res := by
    intro cl now off1 off2 f key0 res hrun
    simp only [clientGetEntry] at hrun
    split at hrun
    · injection hrun with h
      rw [← h]
      exact allKeysPfx_of_all_single _ key0 _ (by intro c hc; simp at hc)
        (by intro c hc; simp at hc)
    · split at hrun
      · injection hrun with h
        rw [← h]
        refine allKeysPfx_of_all_single _ key0 _ ?_ ?_
        · intro c hc
          simp at hc
        · intro c hc
          simp only [List.mem_singleton] at hc
          rw [hc, ← hpk]
      · split at hrun
        · exact Option.noConfusion hrun
        · split at hrun
          · injection hrun with h
            rw [← h]
            refine allKeysPfx_of_all_single _ key0 _ ?_ ?_
            · intro c hc
              simp only [List.mem_cons, List.not_mem_nil, or_false] at hc
              rcases hc with rfl | rfl <;> rw [← hpk]
            · intro c hc
              simp only [List.append_assoc, List.cons_append, List.nil_append,
                List.mem_cons, List.not_mem_nil, or_false] at hc
              rcases hc with rfl | rfl | rfl <;> rw [← hpk]
          · split at hrun
            · injection hrun with h
              rw [← h]
              refine allKeysPfx_of_all_single _ key0 _ ?_ ?_
              · intro c hc
                simp only [List.mem_cons, List.not_mem_nil, or_false] at hc
                rcases hc with rfl | rfl | rfl <;> rw [← hpk]
              · intro c hc
                simp only [List.append_assoc, List.cons_append, List.nil_append,
                  List.mem_cons, List.not_mem_nil, or_false] at hc
                rcases hc with rfl | rfl | rfl <;> rw [← hpk]
            · split at hrun
              · split at hrun
                · exact Option.noConfusion hrun
                · injection hrun with h
                  rw [← h]
                  refine allKeysPfx_of_all_single _ key0 _ ?_ ?_
                  · intro c hc
                    simp only [List.mem_cons, List.not_mem_nil, or_false] at hc
                    rcases hc with rfl | rfl <;> rw [← hpk]
                  · intro c hc
                    simp only [List.append_assoc, List.cons_append,
                      List.nil_append, List.mem_cons, List.not_mem_nil,
                      or_false] at hc
                    rcases hc with rfl | rfl | rfl | rfl <;> rw [← hpk]
              · injection hrun with h
                rw [← h]
                refine allKeysPfx_of_all_single _ key0 _ ?_ ?_
                · intro c hc
                  simp only [List.mem_cons, List.not_mem_nil, or_false] at hc
                  rcases hc with rfl | rfl <;> rw [← hpk]
                · intro c hc
                  simp only [List.append_assoc, List.cons_append,
                    List.nil_append, List.mem_cons, List.not_mem_nil,
                    or_false] at hc
                  rcases hc with rfl | rfl | rfl <;> rw [← hpk]
  refine ⟨hmain, ?_, ?_, ?_⟩
  · intro cl now off1 off2 f key0 res hrun
    simp only [clientGet, Option.map_eq_some'] at hrun
    obtain ⟨r0, hr0, hres⟩ := hrun
    have := hmain cl now off1 off2 f key0 r0 hr0
    rw [← hres]
    exact this
  · intro cl key0 v ttl
    simp only [clientSet]
    split
    · exact allKeysPfx_of_all_single _ key0 _ (by intro c hc; simp at hc)
        (by intro c hc; simp at hc)
    · split
      · refine allKeysPfx_of_all_single _ key0 _ ?_ (by intro c hc; simp at hc)
        intro c hc
        simp only [List.mem_singleton] at hc
        rw [hc, ← hpk]
      · refine allKeysPfx_of_all_single _ key0 _ ?_ (by intro c hc; simp at hc)
        intro c hc
        simp only [List.mem_singleton] at hc
        rw [hc, ← hpk]
  · intro cl keys
    simp only [clientDelete, hp, if_true]
    have hkeys : ∀ q ∈ keys.map (pfxKey opts), ∃ k0, q = opts.kpfx ++ k0 := by
      intro q hq
      rw [List.mem_map] at hq
      obtain ⟨k0, _, hk0⟩ := hq
      exact ⟨k0, by rw [← hk0, hpk]⟩
    split
    · exact allKeysPfx_of_all_single _ "" _ (by intro c hc; simp at hc)
        (by intro c hc; simp at hc)
    · split
      · constructor
        · intro c hc q hq
          simp only [List.mem_singleton] at hc
          rw [hc] at hq
          exact hkeys q hq
        · intro c hc q hq
          simp at hc
      · constructor
        · intro c hc q hq
          simp only [List.mem_singleton] at hc
          rw [hc] at hq
          exact hkeys q hq
        · intro c hc q hq
          simp only [List.mem_singleton] at hc
          rw [hc] at hq
          exact hkeys q hq

/-- C6 counterexample: with KeyPrefix `"p:"`, `GetEntries(["k"])` issues
its MGET/TTL commands and performs all its cache operations on the
unprefixed key `"k"` — which differs from the prefixed key `"p:k"` —
refuting the claim that every key used by GetEntries is prefixed. -/
theorem getentries_no_pfx_cex :
    (clientGetEntries ⟨"p:"⟩ ⟨false, ⟨10, [], 0, 0, 0, 0⟩,
        [.ok (.arr [.bulk "v"]), .ok (.arr [.intv 60])]⟩ 100 [] ["k"]).map
      (fun r => (r.sent, r.cops)) =
    some ([⟨"MGET", ["k"]⟩, ⟨"MULTI", []⟩, ⟨"TTL", ["k"]⟩, ⟨"EXEC", []⟩],
      [⟨"cache.getm", ["k"]⟩, ⟨"cache.set", ["k"]⟩, ⟨"cache.get", ["k"]⟩,
        ⟨"cache.set", ["k"]⟩]) ∧
    ("k" : String) ≠ "p:" ++ "k" ∧ pfxKey ⟨"p:"⟩ "k" = "p:" ++ "k" := by
  refine ⟨by decide, by decide, by decide⟩

/-- C6 witness: the amended statement applied to a concrete `Set` with
prefix `"p:"`. -/
theorem ops_apply_key_pfx_witness :
    allKeysPfx "p:" (clientSet ⟨"p:"⟩ ⟨false, ⟨10, [], 0, 0, 0, 0⟩,
      [.ok (.simple "OK")]⟩ "k" (some "v") 60) :=
  (ops_apply_key_pfx ⟨"p:"⟩ (by decide)).2.2.1 _ "k" (some "v") 60

theorem lookupE_insertE_self (es : List (String × CEntry)) (k : String)
    (e : CEntry) : Cache.lookupE (Cache.insertE es k e) k = some e := by
  induction es with
  | nil => simp [Cache.insertE, Cache.lookupE]
  | cons p t ih =>
    simp only [Cache.insertE]
    split
    · simp [Cache.lookupE]
    · next hne =>
      simp only [Cache.lookupE, List.find?_cons] at ih ⊢
      split
      · next hfound =>
        simp only [decide_eq_true_eq] at hfound
        exact absurd hfound hne
      · exact ih

theorem set_lookup_self (off : Nat) (now : Int) (c : Cache) (k : String)
    (v : Option String) (t : Int) (c' : Cache)
    (h : Cache.set off now c k v t = some c') :
    Cache.lookupE c'.entries k =
      some ⟨v, if t > 0 then some (now + t) else none⟩ := by
  simp only [Cache.set, Option.bind_eq_bind] at h
  split at h
  · cases hy : Cache.evictKeys off c with
    | none =>
      rw [hy] at h
      simp at h
    | some y =>
      rw [hy] at h
      simp only [Option.some_bind] at h
      injection h with h'
      rw [← h']
      exact lookupE_insertE_self _ _ _
  · simp only [Option.some_bind] at h
    injection h with h'
    rw [← h']
    exact lookupE_insertE_self _ _ _

/-- C1: for every `Client.Get`/`GetEntry` call that misses locally and
completes its remote GET and TTL round trips without error (and without
panicking inside `cache.set`), the fetched bytes are committed to the
local cache — with the server-returned TTL — if and only if the local
entry for the prefixed key, re-read after the fetch (that is, after the
concurrent mutations `f`), still equals the sentinel; when the re-read
yields any other value (including absent), the local cache is left
exactly as the re-read found it, so the fetched bytes are discarded. -/
theorem sentinel_commit_iff (opts : PoolOptions) (cl : ClientState)
    (now : Int) (off1 off2 : Nat) (f : Cache → Cache) (key0 : String)
    (d : String) (t : Int) (rest : Conn) (c2 : Cache)
    (res : OpResult Entry)
    (hcl : cl.closed = false)
    (hmiss : ¬ (((Cache.getEntry cl.cache (pfxKey opts key0)).1).isSome ∧
      (((Cache.getEntry cl.cache (pfxKey opts key0)).1).getD
        ⟨none, none⟩).data.isSome ∧
      goStr (((Cache.getEntry cl.cache (pfxKey opts key0)).1).getD
        ⟨none, none⟩).data ≠ cacheInProgressSentinel))
    (hconn : cl.conn = .ok (.bulk d) :: .ok (.intv t) :: rest)
    (hplant : Cache.set off1 now (Cache.getEntry cl.cache (pfxKey opts key0)).2
      (pfxKey opts key0) (some cacheInProgressSentinel) 30 = some c2)
    (hrun : clientGetEntry opts cl now off1 off2 f key0 = some res) :
    res.res = .ok ⟨some d, some (now + t), false⟩ ∧
    (goStr (Cache.get (f c2) (pfxKey opts key0)).1 = cacheInProgressSentinel →
      Cache.set off2 now (Cache.get (f c2) (pfxKey opts key0)).2
        (pfxKey opts key0) (some d) t = some res.cache ∧
      Cache.lookupE res.cache.entries (pfxKey opts key0) =
        some ⟨some d, if t > 0 then some (now + t) else none⟩) ∧
    (goStr (Cache.get (f c2) (pfxKey opts key0)).1 ≠ cacheInProgressSentinel →
      res.cache = (Cache.get (f c2) (pfxKey opts key0)).2) := by
  simp only [clientGetEntry, hcl, Bool.false_eq_true, if_false] at hrun
  rw [if_neg hmiss] at hrun
  rw [hplant] at hrun
  rw [hconn] at hrun
  simp only [doRecv, redisBytes, redisInt] at hrun
  by_cases hsent :
      goStr (Cache.get (f c2) (pfxKey opts key0)).1 = cacheInProgressSentinel
  · rw [if_pos hsent] at hrun
    cases hset : Cache.set off2 now (Cache.get (f c2) (pfxKey opts key0)).2
        (pfxKey opts key0) (some d) t with
    | none =>
      rw [hset] at hrun
      exact Option.noConfusion hrun
    | some c5 =>
      rw [hset] at hrun
      injection hrun with h
      rw [← h]
      refine ⟨rfl, ?_, ?_⟩
      · intro _
        exact ⟨rfl, set_lookup_self _ _ _ _ _ _ _ hset⟩
      · intro hc
        exact absurd hsent hc
  · rw [if_neg hsent] at hrun
    injection hrun with h
    rw [← h]
    refine ⟨rfl, ?_, ?_⟩
    · intro hc
      exact absurd hc hsent
    · intro _
      rfl

/-- C1 witness: a concrete race-free miss run (`f = id`): the re-read
finds the sentinel, and the fetched bytes are committed with the
server-returned TTL. -/
theorem sentinel_commit_iff_witness :
    (⟨.ok ⟨some "v", some 160, false⟩,
      ⟨10, [("k", ⟨some "v", some 160⟩)], 1, 1, 0, 0⟩, [],
      [⟨"GET", ["k"]⟩, ⟨"TTL", ["k"]⟩],
      [⟨"cache.getEntry", ["k"]⟩, ⟨"cache.set", ["k"]⟩,
        ⟨"cache.get", ["k"]⟩, ⟨"cache.set", ["k"]⟩]⟩ :
      OpResult Entry).res = .ok ⟨some "v", some (100 + 60), false⟩ ∧
    (goStr (Cache.get (id ⟨10, [("k", ⟨some cacheInProgressSentinel, some 130⟩)],
        0, 1, 0, 0⟩ : Cache) (pfxKey ⟨""⟩ "k")).1 = cacheInProgressSentinel →
      Cache.set 0 100
        (Cache.get (id ⟨10, [("k", ⟨some cacheInProgressSentinel, some 130⟩)],
          0, 1, 0, 0⟩ : Cache) (pfxKey ⟨""⟩ "k")).2 (pfxKey ⟨""⟩ "k")
        (some "v") 60 =
        some (⟨.ok ⟨some "v", some 160, false⟩,
          ⟨10, [("k", ⟨some "v", some 160⟩)], 1, 1, 0, 0⟩, [],
          [⟨"GET", ["k"]⟩, ⟨"TTL", ["k"]⟩],
          [⟨"cache.getEntry", ["k"]⟩, ⟨"cache.set", ["k"]⟩,
            ⟨"cache.get", ["k"]⟩, ⟨"cache.set", ["k"]⟩]⟩ :
          OpResult Entry).cache ∧
      Cache.lookupE (⟨.ok ⟨some "v", some 160, false⟩,
          ⟨10, [("k", ⟨some "v", some 160⟩)], 1, 1, 0, 0⟩, [],
          [⟨"GET", ["k"]⟩, ⟨"TTL", ["k"]⟩],
          [⟨"cache.getEntry", ["k"]⟩, ⟨"cache.set", ["k"]⟩,
            ⟨"cache.get", ["k"]⟩, ⟨"cache.set", ["k"]⟩]⟩ :
          OpResult Entry).cache.entries (pfxKey ⟨""⟩ "k") =
        some ⟨some "v", if (60 : Int) > 0 then some (100 + 60) else none⟩) ∧
    (goStr (Cache.get (id ⟨10, [("k", ⟨some cacheInProgressSentinel, some 130⟩)],
        0, 1, 0, 0⟩ : Cache) (pfxKey ⟨""⟩ "k")).1 ≠ cacheInProgressSentinel →
      (⟨.ok ⟨some "v", some 160, false⟩,
        ⟨10, [("k", ⟨some "v", some 160⟩)], 1, 1, 0, 0⟩, [],
        [⟨"GET", ["k"]⟩, ⟨"TTL", ["k"]⟩],
        [⟨"cache.getEntry", ["k"]⟩, ⟨"cache.set", ["k"]⟩,
          ⟨"cache.get", ["k"]⟩, ⟨"cache.set", ["k"]⟩]⟩ :
        OpResult Entry).cache =
        (Cache.get (id ⟨10, [("k", ⟨some cacheInProgressSentinel, some 130⟩)],
          0, 1, 0, 0⟩ : Cache) (pfxKey ⟨""⟩ "k")).2) :=
  sentinel_commit_iff ⟨""⟩
    ⟨false, ⟨10, [], 0, 0, 0, 0⟩, [.ok (.bulk "v"), .ok (.intv 60)]⟩
    100 0 0 id "k" "v" 60 []
    ⟨10, [("k", ⟨some cacheInProgressSentinel, some 130⟩)], 0, 1, 0, 0⟩
    ⟨.ok ⟨some "v", some 160, false⟩,
      ⟨10, [("k", ⟨some "v", some 160⟩)], 1, 1, 0, 0⟩, [],
      [⟨"GET", ["k"]⟩, ⟨"TTL", ["k"]⟩],
      [⟨"cache.getEntry", ["k"]⟩, ⟨"cache.set", ["k"]⟩,
        ⟨"cache.get", ["k"]⟩, ⟨"cache.set", ["k"]⟩]⟩
    rfl (by decide) rfl (by decide) (by decide)
